import Mathlib

/-!
Verification of the ns_school_map repository core against its specification.

The development shallowly embeds the two cores of the repository:

* the Python geocoding pipeline of `ns_school_mapper_interactive_v9.py`
  (address normalization, geocode cache, retrying geocoder client,
  per-row dataset-builder resolution of `main` in
  `ns_school_mapper_interactive_v7.py`), and
* the client-side marker store and view synchronizer embedded as
  JavaScript in the same file (delete/undo, the visibility predicate,
  status normalization, CSV export).

Pure-function conventions of the embedding:

* Python / JavaScript strings are `String` (lists of `Char`);
  the regular expressions of the source are hand-compiled to
  deterministic character-level matchers (each pattern in the source is
  effectively deterministic, so no backtracking search is needed);
  lower-casing is modelled on ASCII.
* Python floats are modelled as `Rat`; exceptions are modelled as
  result values (`GeoResp`), which makes "never raises" structural.
* The remote geocoding service is an oracle `Nat -> GeoResp` indexed by
  the global call counter; `time.sleep` is modelled by recording the
  requested durations.
* File-system state for the cache is `Option (List CRow)` (`none` means
  the cache file does not exist); the pandas CSV serialization of cache
  rows is treated as the identity on rows, with `Option` fields
  representing empty/NaN cells.
-/

/-! ## Character and list-of-character helpers -/

/-- Whitespace characters recognised by Python `str.strip` / `\s`
(ASCII fragment). -/
def isPySpace (c : Char) : Bool :=
  c = ' ' || c = '\t' || c = '\n' || c = '\r' || c = '\x0b' || c = '\x0c'

/-- Word characters for the `\b` boundary of the `re` module
(ASCII fragment of `[A-Za-z0-9_]`). -/
def isWordChar (c : Char) : Bool :=
  (('a' ≤ c && c ≤ 'z') || ('A' ≤ c && c ≤ 'Z') || ('0' ≤ c && c ≤ '9') || c = '_')

/-- ASCII model of Python `str.lower` / JavaScript `toLowerCase` on one
character. -/
def lowAscii (c : Char) : Char :=
  if 'A' ≤ c && c ≤ 'Z' then Char.ofNat (c.toNat + 32) else c

/-- Lower-case a character list (model of `.lower()` / `.toLowerCase()`). -/
def lowerL (l : List Char) : List Char := l.map lowAscii

/-- Python `str.strip()` : drop whitespace from both ends. -/
def stripWS (l : List Char) : List Char :=
  ((l.dropWhile isPySpace).reverse.dropWhile isPySpace).reverse

/-- Python `str.strip(", ")` : drop commas and spaces from both ends. -/
def stripCS (l : List Char) : List Char :=
  let p : Char → Bool := fun c => c = ',' || c = ' '
  ((l.dropWhile p).reverse.dropWhile p).reverse

/-- Does `pat` occur at the start of `s`? -/
def isPrefixL : List Char → List Char → Bool
  | [], _ => true
  | _ :: _, [] => false
  | p :: ps, c :: cs => p = c && isPrefixL ps cs

/-- Substring test: model of Python `in` and JavaScript `includes` on
strings. -/
def containsL (pat : List Char) : List Char → Bool
  | [] => isPrefixL pat []
  | c :: t => isPrefixL pat (c :: t) || containsL pat t

/-- Model of `re.sub(r"\s+", " ", s)` : each maximal whitespace run
becomes one space.  Fuel-based recursion (each step consumes at least
one character, so `length + 1` fuel always suffices) keeps the function
kernel-evaluable. -/
def collapseWSF : Nat → List Char → List Char
  | 0, _ => []
  | _, [] => []
  | fuel + 1, c :: t =>
    if isPySpace c then ' ' :: collapseWSF fuel (t.dropWhile isPySpace)
    else c :: collapseWSF fuel t

/-- Whitespace collapse at adequate fuel. -/
def collapseWS (l : List Char) : List Char := collapseWSF (l.length + 1) l

/-- Model of the single-pass `str.replace("  ", " ")` used on the
postal-stripped geocode variant. -/
def replaceDbl : List Char → List Char
  | ' ' :: ' ' :: t => ' ' :: replaceDbl t
  | c :: t => c :: replaceDbl t
  | [] => []

/-! ## Python values (for `isinstance` checks and `str()` coercion) -/

/-- The fragment of Python runtime values the pipeline can see in a
status or address cell. -/
inductive PyVal where
  | str (s : String)
  | num (n : Int)
  | none
  | bool (b : Bool)
deriving DecidableEq

/-- Decimal digits of a natural number, fuel-based (a number below
`10 ^ fuel` is rendered fully; `n + 1` fuel always suffices). -/
def natDigitsF : Nat → Nat → List Char
  | 0, _ => []
  | fuel + 1, n =>
    if n < 10 then [Nat.digitChar n]
    else natDigitsF fuel (n / 10) ++ [Nat.digitChar (n % 10)]

/-- Decimal digits of a natural number. -/
def natDigits (n : Nat) : List Char := natDigitsF (n + 1) n

/-- Decimal rendering of an integer (model of `str` on `int`). -/
def intStr (n : Int) : List Char :=
  if n < 0 then '-' :: natDigits n.natAbs else natDigits n.natAbs

/-- Python `str(v)`. -/
def pyStr : PyVal → List Char
  | .str s => s.toList
  | .num n => intStr n
  | .none => "None".toList
  | .bool b => if b then "True".toList else "False".toList

/-- JavaScript `String(v || '')` : falsy values collapse to the empty
string first. -/
def jsStr : PyVal → List Char
  | .str s => s.toList
  | .num n => if n = 0 then [] else intStr n
  | .none => []
  | .bool b => if b then "true".toList else []

/-! ## Status normalization (Python `normalize_status_value`, JS
`normalizeStatus`) -/

/-- Python-side status normalization, from
`ns_school_mapper_interactive_v9.py` lines 132-136:
`v = str(val).strip().lower()`; current/active/both map to current,
recent to recent, everything else to none. -/
def normalize_status_value (v : PyVal) : String :=
  let w := lowerL (stripWS (pyStr v))
  if w = "current".toList || w = "active".toList || w = "both".toList then "current"
  else if w = "recent".toList then "recent"
  else "none"

/-- Client-side status normalization, from the embedded JavaScript
(lines 301-306): `String(s || '').trim().toLowerCase()`, recent first,
then current/active/both, default none. -/
def normalizeStatus (v : PyVal) : String :=
  let w := lowerL (stripWS (jsStr v))
  if w = "recent".toList then "recent"
  else if w = "current".toList || w = "active".toList || w = "both".toList then "current"
  else "none"

/-! ## Hand-compiled regular expressions of the address cleanup

Each pattern of the source (`POBOX_PAT`, `RR_PAT`, `STN_PAT`,
`POSTAL_PAT`, the `\bNS\b` search and the short-variant rewrite) is
deterministic, so it is compiled to a character-level matcher.  A
matcher receives the character preceding the current position (for the
`\b` word boundary) and the remaining input, and returns the input
remaining after a match. -/

/-- Word boundary before a word character: start of string or a
non-word predecessor. -/
def atBoundary : Option Char → Bool
  | Option.none => true
  | Option.some c => !isWordChar c

/-- Word boundary after a word character: end of string or a non-word
successor. -/
def restBoundary : List Char → Bool
  | [] => true
  | c :: _ => !isWordChar c

/-- Consume one character, case-insensitively (`re.I`). -/
def eatCI (c : Char) : List Char → Option (List Char)
  | x :: t => if lowAscii x = c then some t else Option.none
  | [] => Option.none

/-- Consume an optional literal dot (`\.?`). -/
def eatDot : List Char → List Char
  | '.' :: t => t
  | s => s

/-- Generic model of `re.sub`: scan left to right, replace each
leftmost non-overlapping match, resume after the match (passing along
the last consumed character for the next word-boundary test).
Fuel-based: every step consumes at least one character. -/
def scanSubF (m : Option Char → List Char → Option (List Char)) (repl : List Char) :
    Nat → Option Char → List Char → List Char
  | 0, _, _ => []
  | _, _, [] => []
  | fuel + 1, prev, c :: t =>
    match m prev (c :: t) with
    | some rest =>
      if rest.length < (c :: t).length then
        repl ++ scanSubF m repl fuel ((c :: t).get? ((c :: t).length - rest.length - 1)) rest
      else c :: scanSubF m repl fuel (some c) t
    | Option.none => c :: scanSubF m repl fuel (some c) t

/-- First alternative of `POBOX_PAT`: `P\.?\s*O\.?\s*Box`. -/
def matchAlt1 (s : List Char) : Option (List Char) := do
  let s1 ← eatCI 'p' s
  let s2 := (eatDot s1).dropWhile isPySpace
  let s3 ← eatCI 'o' s2
  let s4 := (eatDot s3).dropWhile isPySpace
  let s5 ← eatCI 'b' s4
  let s6 ← eatCI 'o' s5
  eatCI 'x' s6

/-- Second alternative of `POBOX_PAT`: `PO\s*Box`. -/
def matchAlt2 (s : List Char) : Option (List Char) := do
  let s1 ← eatCI 'p' s
  let s2 ← eatCI 'o' s1
  let s3 := s2.dropWhile isPySpace
  let s4 ← eatCI 'b' s3
  let s5 ← eatCI 'o' s4
  eatCI 'x' s5

/-- Third alternative of `POBOX_PAT`: `Box\s+\d+`. -/
def matchAlt3 (s : List Char) : Option (List Char) := do
  let s1 ← eatCI 'b' s
  let s2 ← eatCI 'o' s1
  let s3 ← eatCI 'x' s2
  if (match s3 with | c :: _ => isPySpace c | [] => false) then
    let s4 := s3.dropWhile isPySpace
    if (match s4 with | c :: _ => c.isDigit | [] => false) then
      pure (s4.dropWhile Char.isDigit)
    else failure
  else failure

/-- Matcher for `POBOX_PAT = \b(P\.?\s*O\.?\s*Box|PO\s*Box|Box\s+\d+)\b`
(case-insensitive). -/
def matchPOBOX (prev : Option Char) (s : List Char) : Option (List Char) :=
  if atBoundary prev then
    match ((matchAlt1 s).orElse fun _ => matchAlt2 s).orElse fun _ => matchAlt3 s with
    | some rest => if restBoundary rest then some rest else Option.none
    | Option.none => Option.none
  else Option.none

/-- Matcher for `RR_PAT = \bRR\s*\d+\b` (case-insensitive). -/
def matchRR (prev : Option Char) (s : List Char) : Option (List Char) :=
  if atBoundary prev then do
    let s1 ← eatCI 'r' s
    let s2 ← eatCI 'r' s1
    let s3 := s2.dropWhile isPySpace
    if (match s3 with | c :: _ => c.isDigit | [] => false) then
      let s4 := s3.dropWhile Char.isDigit
      if restBoundary s4 then pure s4 else failure
    else failure
  else Option.none

/-- Matcher for `STN_PAT = \bStn\.?\b` (case-insensitive); the optional
dot is kept only when a word character follows it, as the trailing `\b`
demands. -/
def matchSTN (prev : Option Char) (s : List Char) : Option (List Char) :=
  if atBoundary prev then do
    let s1 ← eatCI 's' s
    let s2 ← eatCI 't' s1
    let s3 ← eatCI 'n' s2
    match s3 with
    | '.' :: r =>
      if (match r with | c :: _ => isWordChar c | [] => false) then pure r
      else pure ('.' :: r)
    | r => if restBoundary r then pure r else failure
  else Option.none

/-- ASCII upper-casing, for the case-insensitive postal-code classes. -/
def upAscii (c : Char) : Char :=
  if 'a' ≤ c && c ≤ 'z' then Char.ofNat (c.toNat - 32) else c

/-- Case-insensitive membership in a character class. -/
def inClass (cls : String) (c : Char) : Bool := cls.toList.contains (upAscii c)

/-- Matcher for
`POSTAL_PAT = \b[ABCEGHJ-NPRSTVXY]\d[ABCEGHJ-NPRSTV-Z]\s?\d[ABCEGHJ-NPRSTV-Z]\d\b`
(case-insensitive). -/
def matchPostal (prev : Option Char) (s : List Char) : Option (List Char) :=
  if atBoundary prev then
    match s with
    | c1 :: d1 :: c2 :: rest2 =>
      if inClass "ABCEGHJKLMNPRSTVXY" c1 && d1.isDigit && inClass "ABCEGHJKLMNPRSTVWXYZ" c2 then
        let rest3 := match rest2 with
          | c :: t => if isPySpace c then t else c :: t
          | [] => []
        match rest3 with
        | d2 :: c3 :: d3 :: rest4 =>
          if d2.isDigit && inClass "ABCEGHJKLMNPRSTVWXYZ" c3 && d3.isDigit &&
              restBoundary rest4 then
            some rest4
          else Option.none
        | _ => Option.none
      else Option.none
    | _ => Option.none
  else Option.none

/-- Run a substitution over a whole string (initial position has no
predecessor). -/
def pySub (m : Option Char → List Char → Option (List Char)) (repl : List Char)
    (s : List Char) : List Char :=
  scanSubF m repl (s.length + 1) Option.none s

/-- The region token. -/
def nsTok : List Char := "Nova Scotia".toList

/-- The country token. -/
def caTok : List Char := "Canada".toList

/-- Model of `s.replace(" NS", ", Nova Scotia")`. -/
def replaceSp : List Char → List Char
  | ' ' :: 'N' :: 'S' :: t => ", Nova Scotia".toList ++ replaceSp t
  | c :: t => c :: replaceSp t
  | [] => []

/-- Model of `re.search(r"\bNS\b", s)` (case-sensitive). -/
def hasNSWord : Option Char → List Char → Bool
  | _, [] => false
  | prev, c :: t =>
    (c = 'N' && atBoundary prev &&
      (match t with
       | 'S' :: u => restBoundary u
       | _ => false)) || hasNSWord (some c) t

/-- Model of `re.sub(r",\s*Nova Scotia.*", ", Nova Scotia, Canada", s)`
(`.` does not cross newlines). -/
def shortScanF : Nat → List Char → List Char
  | 0, _ => []
  | _, [] => []
  | fuel + 1, c :: t =>
    if c = ',' && isPrefixL nsTok (t.dropWhile isPySpace) then
      ", Nova Scotia, Canada".toList ++
        shortScanF fuel (((t.dropWhile isPySpace).drop nsTok.length).dropWhile fun x => x ≠ '\n')
    else c :: shortScanF fuel t

/-- The short-variant rewrite at adequate fuel. -/
def shortScan (l : List Char) : List Char := shortScanF (l.length + 1) l

/-! ## Address normalization (`normalize_address`, lines 46-60) -/

/-- Steps 1-4 of `normalize_address`: `strip`, remove `POBOX_PAT` and
`RR_PAT`, expand `STN_PAT` to `Station`, collapse whitespace, strip
stray `", "` separators. -/
def cleanPass (s : List Char) : List Char :=
  let s1 := stripWS s
  let s2 := pySub matchPOBOX [] s1
  let s3 := pySub matchRR [] s2
  let s4 := pySub matchSTN ("Station".toList) s3
  stripWS (stripCS (collapseWS s4))

/-- String branch of `normalize_address` (the input is a `str`). -/
def normStr (s : String) : String :=
  let c1 := cleanPass s.toList
  let c2 := if !containsL nsTok c1 && hasNSWord Option.none c1 then replaceSp c1 else c1
  let c3 := if !containsL nsTok c2 then c2 ++ ", Nova Scotia".toList else c2
  let c4 := if !containsL caTok c3 then c3 ++ ", Canada".toList else c3
  String.mk c4

/-- Full `normalize_address`: non-`str` input returns the empty
string. -/
def normalize_address : PyVal → String
  | .str s => normStr s
  | _ => ""

/-! ## Geocoding client (`geocode_address`, lines 96-129)

The remote service is an oracle indexed by the global call counter.  A
response is either a location, an empty result (`loc` falsy), or one of
the exception classes the source distinguishes; exceptions are values
here, so the embedded client is total by construction — the "never
propagates exceptions" part of the contract is structural. -/

/-- One response of `geocode_fn`. -/
inductive GeoResp where
  | found (lat lon : Rat)
  | noResult
  | timedOut
  | unavailable
  | otherError
deriving DecidableEq

/-- Did the response carry a location? -/
def isFound : GeoResp → Bool
  | .found _ _ => true
  | _ => false

/-- Was the response a raised exception (of any class)? -/
def isErr : GeoResp → Bool
  | .timedOut => true
  | .unavailable => true
  | .otherError => true
  | _ => false

/-- Observable outcome of a `geocode_address` run: the returned pair,
the log of service calls (variant, attempt index, response) and the
requested sleep durations. -/
structure GeoOut where
  result : Option (Rat × Rat)
  calls : List (String × Nat × GeoResp)
  sleeps : List Rat
deriving DecidableEq

/-- Variant and attempt index of a logged call. -/
def callIdx (c : String × Nat × GeoResp) : String × Nat := (c.1, c.2.1)

/-- The inner `for i in range(retries)` loop of `geocode_address` on one
variant `v`: a found location returns immediately; a falsy result moves
to the next attempt without sleeping; both `except` arms sleep
`backoff * (i + 1)` and move to the next attempt.  Returns the outcome
and the next global call index. -/
def attemptLoop (oracle : Nat → GeoResp) (v : String) (backoff : Rat) :
    Nat → Nat → Nat → GeoOut × Nat
  | 0, _, k => (⟨Option.none, [], []⟩, k)
  | fuel + 1, i, k =>
    match oracle k with
    | .found la lo => (⟨some (la, lo), [(v, i, .found la lo)], []⟩, k + 1)
    | .noResult =>
      let r := attemptLoop oracle v backoff fuel (i + 1) (k + 1)
      (⟨r.1.result, (v, i, .noResult) :: r.1.calls, r.1.sleeps⟩, r.2)
    | e =>
      let r := attemptLoop oracle v backoff fuel (i + 1) (k + 1)
      (⟨r.1.result, (v, i, e) :: r.1.calls, backoff * ((i + 1 : Nat) : Rat) :: r.1.sleeps⟩, r.2)

/-- The outer `for v in variants` loop. -/
def variantsLoop (oracle : Nat → GeoResp) (backoff : Rat) (retries : Nat) :
    List String → Nat → GeoOut × Nat
  | [], k => (⟨Option.none, [], []⟩, k)
  | v :: vs, k =>
    let r := attemptLoop oracle v backoff retries 0 k
    match r.1.result with
    | some x => (⟨some x, r.1.calls, r.1.sleeps⟩, r.2)
    | Option.none =>
      let r2 := variantsLoop oracle backoff retries vs r.2
      (⟨r2.1.result, r.1.calls ++ r2.1.calls, r.1.sleeps ++ r2.1.sleeps⟩, r2.2)

/-- The postal-code-stripped variant:
`POSTAL_PAT.sub("", address).replace("  ", " ").strip(", ").strip()`. -/
def no_postal (a : List Char) : List Char :=
  stripWS (stripCS (replaceDbl (pySub matchPostal [] a)))

/-- The ordered variant list built at the top of `geocode_address`. -/
def buildVariants (address : String) : List String :=
  let a := address.toList
  let v1 := [address]
  let np := String.mk (no_postal a)
  let v2 := if np ≠ address then v1 ++ [np] else v1
  let sh := String.mk (shortScan a)
  if sh ≠ address ∧ sh ∉ v2 then v2 ++ [sh] else v2

/-- Whole `geocode_address` call. -/
def geocode_address (oracle : Nat → GeoResp) (address : String) (retries : Nat)
    (backoff : Rat) : GeoOut :=
  (variantsLoop oracle backoff retries (buildVariants address) 0).1

/-! ## Geocode cache (`load_cache` / `save_cache`, lines 77-91) -/

/-- One persisted cache row (`Option.none` is an empty/NaN cell). -/
structure CRow where
  address : String
  lat : Option Rat
  lon : Option Rat
deriving DecidableEq

/-- Python dict assignment `d[a] = v`: replace in place or append. -/
def dictSet : List CRow → String → Option Rat × Option Rat → List CRow
  | [], a, v => [⟨a, v.1, v.2⟩]
  | r :: t, a, v => if r.address = a then ⟨a, v.1, v.2⟩ :: t else r :: dictSet t a v

/-- Python dict lookup (keys are unique, so first match suffices). -/
def lookupD : List CRow → String → Option (Option Rat × Option Rat)
  | [], _ => Option.none
  | r :: t, a => if r.address = a then some (r.lat, r.lon) else lookupD t a

/-- The `for _, row in df.iterrows(): out[row["address"]] = ...` loop of
`load_cache`. -/
def buildDict : List CRow → List CRow → List CRow
  | acc, [] => acc
  | acc, r :: t => buildDict (dictSet acc r.address (r.lat, r.lon)) t

/-- `load_cache`: a missing store yields an empty map. -/
def load_cache : Option (List CRow) → List CRow
  | Option.none => []
  | some rows => buildDict [] rows

/-- `save_cache`: `if not cache: return` — an empty map leaves the file
untouched; otherwise the file is rewritten with exactly the map's
rows. -/
def save_cache (fs : Option (List CRow)) (cache : List CRow) : Option (List CRow) :=
  if cache = [] then fs else some cache

/-! ## Dataset builder: per-row coordinate resolution (the row loop of
`main` in `ns_school_mapper_interactive_v7.py`, lines 622-659) -/

/-- Result of resolving one input row: the chosen coordinates, the cache
afterwards, and how many `geocode_address` network calls were made. -/
structure BuildRes where
  lat : Option Rat
  lon : Option Rat
  cache : List CRow
  ncalls : Nat
deriving DecidableEq

/-- One iteration of the row loop.  `latF`/`lonF` are
`float(row["lat"])` / `float(row["lon"])` when the columns exist and
parse (`Option.none` models both a missing column and a parse failure,
which the source folds together); `addr` is the row's normalized
address; `geo` is what `geocode_address` would return for `addr`. -/
def resolveRow (noCache regeoFailed : Bool) (cache : List CRow) (latF lonF : Option Rat)
    (addr : String) (geo : Option Rat × Option Rat) : BuildRes :=
  match latF, lonF with
  | some la, some lo =>
    ⟨some la, some lo, if noCache then cache else dictSet cache addr (some la, some lo), 0⟩
  | _, _ =>
    match noCache, lookupD cache addr, regeoFailed with
    | false, some (some cla, some clo), _ => ⟨some cla, some clo, cache, 0⟩
    | false, some (Option.none, p2), false => ⟨Option.none, p2, cache, 0⟩
    | false, some (some cla, Option.none), false => ⟨some cla, Option.none, cache, 0⟩
    | _, _, _ => ⟨geo.1, geo.2, if noCache then cache else dictSet cache addr geo, 1⟩

/-! ## Marker store (the embedded JavaScript state) -/

/-- A location record of the client-side `DATA` array.  Every field may
be `null` in the embedded JSON, hence the `Option`s. -/
structure Rec where
  school : Option String
  address : Option String
  group : Option String
  lat : Option Rat
  lon : Option Rat
  status : Option String
deriving DecidableEq

/-- An entry of `UNDO_STACK` (`type` is always `'delete'`). -/
structure UndoEntry where
  record : Rec
  idx : Nat
deriving DecidableEq

/-- The mutable client state the delete/undo operations touch. -/
structure StoreState where
  data : List Rec
  undo : List UndoEntry
deriving DecidableEq

/-- JavaScript `arr.splice(pos, 0, x)` for `pos ≤ arr.length`. -/
def insertAt {α : Type} : Nat → α → List α → List α
  | 0, a, l => a :: l
  | _ + 1, a, [] => [a]
  | n + 1, a, x :: xs => x :: insertAt n a xs

/-- The JS value at an option field, for status normalization. -/
def jsVal : Option String → PyVal
  | Option.none => PyVal.none
  | some s => PyVal.str s

/-- `window._delete(idx)` (lines 386-394): guard on `!DATA[idx]`, push
a copy of the record with its index, splice it out, toast. -/
def window_delete (s : StoreState) (idx : Nat) : StoreState × Option String :=
  match s.data.get? idx with
  | Option.none => (s, Option.none)
  | some r =>
    (⟨s.data.eraseIdx idx, ⟨r, idx⟩ :: s.undo⟩, some "Deleted. Click Undo Delete to restore.")

/-- `undoDelete()` (lines 613-623): empty stack is a no-op with a
notice; otherwise pop and re-insert at `min(idx, DATA.length)`. -/
def undoDelete (s : StoreState) : StoreState × Option String :=
  match s.undo with
  | [] => (s, some "Nothing to undo.")
  | e :: rest =>
    let pos := min e.idx s.data.length
    (⟨insertAt pos e.record s.data, rest⟩, some "Restored.")

/-! ## View synchronizer: the visibility predicate (lines 320-336) -/

/-- The active filter state read from the controls. -/
structure FilterState where
  statuses : List String
  groups : List String
  search : String
deriving DecidableEq

/-- `visiblePredicate(rec)` exactly as the source sequences it:
status check, then group check when any group is selected, then the
search over `school + ' ' + address`, with the query trimmed and
lower-cased. -/
def visiblePredicate (f : FilterState) (r : Rec) : Bool :=
  let q := lowerL (stripWS f.search.toList)
  let v1 := f.statuses.contains (normalizeStatus (jsVal r.status))
  let v2 := if v1 && !f.groups.isEmpty then f.groups.contains (r.group.getD "") else v1
  if v2 && !q.isEmpty then
    containsL q (lowerL ((r.school.getD "").toList ++ ' ' :: (r.address.getD "").toList))
  else v2

/-- Visibility as the specification words it (for comparison with
`visiblePredicate`): status in set, group in set or set empty, search
empty or a case-insensitive substring of the school name or of the
address. -/
def specVisible (f : FilterState) (r : Rec) : Bool :=
  f.statuses.contains (normalizeStatus (jsVal r.status)) &&
  (f.groups.isEmpty || f.groups.contains (r.group.getD "")) &&
  (f.search.isEmpty ||
    containsL (lowerL f.search.toList) (lowerL (r.school.getD "").toList) ||
    containsL (lowerL f.search.toList) (lowerL (r.address.getD "").toList))

/-- The corrected conjunction the code actually implements: the trimmed
lower-cased query must be empty or a substring of the single string
`school + ' ' + address`. -/
def amendedVisible (f : FilterState) (r : Rec) : Bool :=
  let q := lowerL (stripWS f.search.toList)
  f.statuses.contains (normalizeStatus (jsVal r.status)) &&
  (f.groups.isEmpty || f.groups.contains (r.group.getD "")) &&
  (q.isEmpty || containsL q (lowerL ((r.school.getD "").toList ++ ' ' :: (r.address.getD "").toList)))

/-! ## CSV export (`downloadCSV`, lines 487-505) and an RFC4180 reader

`downloadCSV` returns `Option.none` when the store is empty (the early
`return`: no blob, no header).  Otherwise it emits the header line
verbatim and one escaped line per record.  JavaScript number-to-string
formatting for `lat`/`lon` is abstracted by `ratStr`; the round-trip
theorems are independent of that rendering. -/

/-- The fixed header row. -/
def csvHeaders : List (List Char) :=
  ["School".toList, "Address".toList, "Group".toList, "lat".toList, "lon".toList,
    "Status".toList]

/-- `String(v).replace(/"/g, '""')`. -/
def doubleQ (f : List Char) : List Char :=
  f.flatMap fun c => if c = '"' then ['"', '"'] else [c]

/-- `/[",\n]/.test(v)`. -/
def needsQuote (v : List Char) : Bool :=
  v.any fun c => c = '"' || c = ',' || c = '\n'

/-- One emitted field: double the quotes, then wrap when the doubled
value still contains a quote, comma or newline. -/
def escapeField (f : List Char) : List Char :=
  let v := doubleQ f
  if needsQuote v then '"' :: v ++ ['"'] else v

/-- Abstraction of JavaScript number formatting for a coordinate. -/
def ratStr (q : Rat) : List Char :=
  if q.den = 1 then intStr q.num else intStr q.num ++ '/' :: natDigits q.den

/-- `row[h] == null ? "" : String(row[h])` for a string field. -/
def optStr (o : Option String) : List Char := (o.getD "").toList

/-- `row[h] == null ? "" : String(row[h])` for a numeric field. -/
def optRatStr : Option Rat → List Char
  | Option.none => []
  | some q => ratStr q

/-- The six field strings of one record, in header order. -/
def recFieldsL (r : Rec) : List (List Char) :=
  [optStr r.school, optStr r.address, optStr r.group, optRatStr r.lat, optRatStr r.lon,
    optStr r.status]

/-- `parts.join(sep)`. -/
def joinSep (sep : Char) : List (List Char) → List Char
  | [] => []
  | [x] => x
  | x :: y :: t => x ++ sep :: joinSep sep (y :: t)

/-- The full emitted text: unescaped header line, then one escaped line
per record, joined by a newline. -/
def csvText (recs : List Rec) : List Char :=
  joinSep '\n'
    (joinSep ',' csvHeaders :: recs.map fun r => joinSep ',' ((recFieldsL r).map escapeField))

/-- `downloadCSV()`: `if (!DATA || !DATA.length) return;` — empty store
produces nothing at all; otherwise the emitted text. -/
def downloadCSV (recs : List Rec) : Option (List Char) :=
  if recs.isEmpty then Option.none else some (csvText recs)

/-- RFC4180 reader, quoted-field mode: consume up to the closing quote,
turning doubled quotes into one. -/
def parseQuoted : List Char → List Char × List Char
  | [] => ([], [])
  | c :: t =>
    if c = '"' then
      match t with
      | u0 :: u =>
        if u0 = '"' then let p := parseQuoted u; ('"' :: p.1, p.2) else ([], t)
      | [] => ([], [])
    else
      let p := parseQuoted t
      (c :: p.1, p.2)

/-- RFC4180 reader, bare-field mode: consume up to a comma, newline or
the end, leaving the delimiter in place. -/
def parseBare : List Char → List Char × List Char
  | [] => ([], [])
  | c :: t =>
    if c = ',' || c = '\n' then ([], c :: t)
    else let p := parseBare t; (c :: p.1, p.2)

/-- Read one CSV field: a leading quote selects quoted mode. -/
def parseField : List Char → List Char × List Char
  | [] => parseBare []
  | c :: t => if c = '"' then parseQuoted t else parseBare (c :: t)

/-- Read one CSV record (fuel bounds the number of fields). -/
def parseRecF : Nat → List Char → List (List Char) × List Char
  | 0, s => ([], s)
  | fuel + 1, s =>
    let p := parseField s
    match p.2 with
    | [] => ([p.1], [])
    | d :: u =>
      if d = ',' then let q := parseRecF fuel u; (p.1 :: q.1, q.2)
      else if d = '\n' then ([p.1], u)
      else ([p.1], d :: u)

/-- Read all CSV records (fuel bounds the number of records). -/
def parseRowsF : Nat → List Char → List (List (List Char))
  | 0, _ => []
  | fuel + 1, s =>
    match s with
    | [] => []
    | c :: t =>
      let p := parseRecF ((c :: t).length + 1) (c :: t)
      p.1 :: parseRowsF fuel p.2

/-- Parse a whole CSV text into records of field strings. -/
def parseCSV (s : List Char) : List (List (List Char)) :=
  parseRowsF (s.length + 1) s

/-! ## Helper lemmas -/

theorem isPrefixL_append (pat s t : List Char) (h : isPrefixL pat s = true) :
    isPrefixL pat (s ++ t) = true := by
  induction pat generalizing s with
  | nil => simp [isPrefixL]
  | cons p ps ih =>
    cases s with
    | nil => simp [isPrefixL] at h
    | cons c cs =>
      simp only [isPrefixL, Bool.and_eq_true] at h ⊢
      exact ⟨h.1, ih cs h.2⟩

theorem containsL_append_right (pat s t : List Char) (h : containsL pat s = true) :
    containsL pat (s ++ t) = true := by
  induction s with
  | nil =>
    simp only [containsL] at h
    cases t with
    | nil => simpa [containsL] using h
    | cons c cs =>
      simp only [List.nil_append, containsL, Bool.or_eq_true]
      exact Or.inl (isPrefixL_append _ _ _ h)
  | cons c cs ih =>
    simp only [containsL, Bool.or_eq_true] at h
    simp only [List.cons_append, containsL, Bool.or_eq_true]
    cases h with
    | inl h => exact Or.inl (isPrefixL_append _ _ _ h)
    | inr h => exact Or.inr (ih h)

theorem containsL_append_left (pat s t : List Char) (h : containsL pat t = true) :
    containsL pat (s ++ t) = true := by
  induction s with
  | nil => simpa using h
  | cons c cs ih =>
    simp only [List.cons_append, containsL, Bool.or_eq_true]
    exact Or.inr ih

theorem insertAt_get_eraseIdx {α : Type} (l : List α) (i : Nat) (h : i < l.length) :
    insertAt i (l.get ⟨i, h⟩) (l.eraseIdx i) = l := by
  induction l generalizing i with
  | nil => simp at h
  | cons x t ih =>
    cases i with
    | zero => rfl
    | succ j =>
      simp only [List.length_cons, Nat.succ_lt_succ_iff] at h
      simp only [List.get, List.eraseIdx, insertAt]
      exact congrArg (x :: ·) (ih j h)

/-! ## Claim theorems -/

/-- C10: with an empty record store, `downloadCSV` returns immediately
and produces no output at all — no blob, not even a header row. -/
theorem c10_empty_export_none : downloadCSV [] = Option.none := rfl

/-- C2: for every marker store state and valid index, `Delete` then
`UndoDelete` with no intervening mutation restores the store exactly
(same record at the same index, undo stack as before, hence no
duplicates); and `UndoDelete` on an empty stack leaves the store
unchanged, showing only the "Nothing to undo." notice. -/
theorem c2_delete_undo_roundtrip :
    (∀ (s : StoreState) (idx : Nat), idx < s.data.length →
      (undoDelete (window_delete s idx).1).1 = s) ∧
    (∀ s : StoreState, s.undo = [] → undoDelete s = (s, some "Nothing to undo.")) := by
  constructor
  · intro s idx h
    have hget : s.data.get? idx = some (s.data.get ⟨idx, h⟩) := List.get?_eq_get h
    simp only [window_delete, hget, undoDelete]
    have hlen : (s.data.eraseIdx idx).length = s.data.length - 1 :=
      List.length_eraseIdx_of_lt h
    have hmin : min idx (s.data.eraseIdx idx).length = idx := by omega
    simp only [hmin]
    have := insertAt_get_eraseIdx s.data idx h
    cases s with
    | mk data undo => simpa using this
  · intro s hs
    simp [undoDelete, hs]

/-- C2 witness: a concrete two-record store; deleting index 1 and
undoing restores it, and undo on an empty stack is a no-op with the
notice. -/
theorem c2_delete_undo_roundtrip_witness :
    (undoDelete (window_delete
        ⟨[⟨some "A", some "1 X St", some "G", some 1, some 2, some "none"⟩,
          ⟨some "B", some "2 Y St", some "H", some 3, some 4, some "recent"⟩], []⟩ 1).1).1 =
      ⟨[⟨some "A", some "1 X St", some "G", some 1, some 2, some "none"⟩,
        ⟨some "B", some "2 Y St", some "H", some 3, some 4, some "recent"⟩], []⟩ ∧
    undoDelete ⟨[], []⟩ = (⟨[], []⟩, some "Nothing to undo.") :=
  ⟨c2_delete_undo_roundtrip.1 _ 1 (by decide), c2_delete_undo_roundtrip.2 _ rfl⟩

/-- C3 counterexample: the claim says the search text must be a
substring of the school name or of the address.  The code searches the
single string `school + ' ' + address`, so the query "b c" matches the
record with school "ab" and address "cd" (haystack "ab cd") although it
occurs in neither field: the code shows the record while the claimed
predicate rejects it. -/
theorem c3_counterexample :
    visiblePredicate ⟨["none"], [], "b c"⟩
        ⟨some "ab", some "cd", Option.none, some 1, some 1, some "none"⟩ = true ∧
    specVisible ⟨["none"], [], "b c"⟩
        ⟨some "ab", some "cd", Option.none, some 1, some 1, some "none"⟩ = false := by
  constructor <;> decide

/-- C3 amended: a record is visible iff its normalized status is in the
selected status set, AND its group is in the selected group set or that
set is empty, AND the trimmed lower-cased search text is empty or a
substring of the single lower-cased string formed by the school name, a
space, and the address. -/
theorem c3_visible_iff (f : FilterState) (r : Rec) :
    visiblePredicate f r = amendedVisible f r := by
  simp only [visiblePredicate, amendedVisible]
  generalize lowerL (stripWS f.search.toList) = q
  generalize f.statuses.contains (normalizeStatus (jsVal r.status)) = a
  generalize f.groups.isEmpty = b
  generalize f.groups.contains (r.group.getD "") = m
  generalize containsL q
    (lowerL ((r.school.getD "").toList ++ ' ' :: (r.address.getD "").toList)) = c
  generalize q.isEmpty = e
  cases a <;> cases b <;> cases m <;> cases c <;> cases e <;> rfl

theorem lookupD_dictSet (m : List CRow) (a : String) (v : Option Rat × Option Rat) :
    lookupD (dictSet m a v) a = some v := by
  induction m with
  | nil => simp [dictSet, lookupD]
  | cons r t ih =>
    by_cases h : r.address = a
    · simp [dictSet, lookupD, h]
    · simp [dictSet, lookupD, h, ih]

/-- C4: a row whose `lat`/`lon` parse as numbers is used as-is: no
`geocode_address` call happens for that row and (when caching is
enabled, `no_cache = False`) the coordinates are written into the cache
under the row's normalized address; and any row whose normalized
address has a cache hit with both coordinates present triggers no
network call either. -/
theorem c4_prior_coords_no_network :
    (∀ (nc rg : Bool) (cache : List CRow) (addr : String)
        (geo : Option Rat × Option Rat) (la lo : Rat),
      (resolveRow nc rg cache (some la) (some lo) addr geo).ncalls = 0 ∧
      (resolveRow nc rg cache (some la) (some lo) addr geo).lat = some la ∧
      (resolveRow nc rg cache (some la) (some lo) addr geo).lon = some lo ∧
      (nc = false →
        lookupD (resolveRow nc rg cache (some la) (some lo) addr geo).cache addr =
          some (some la, some lo))) ∧
    (∀ (rg : Bool) (cache : List CRow) (latF lonF : Option Rat) (addr : String)
        (geo : Option Rat × Option Rat) (cla clo : Rat),
      lookupD cache addr = some (some cla, some clo) →
      (resolveRow false rg cache latF lonF addr geo).ncalls = 0) := by
  constructor
  · intro nc rg cache addr geo la lo
    refine ⟨rfl, rfl, rfl, ?_⟩
    intro hnc
    subst hnc
    simp only [resolveRow]
    exact lookupD_dictSet cache addr (some la, some lo)
  · intro rg cache latF lonF addr geo cla clo hhit
    cases latF with
    | none => cases lonF <;> simp [resolveRow, hhit]
    | some la => cases lonF with
      | none => simp [resolveRow, hhit]
      | some lo => rfl

/-- C4 witness: a row carrying coordinates (44, -63) is used as-is with
zero network calls and a cache write, and a cached row needs no call. -/
theorem c4_prior_coords_no_network_witness :
    (resolveRow false false [] (some 44) (some (-63)) "a, Nova Scotia, Canada"
        (Option.none, Option.none)).ncalls = 0 ∧
    lookupD (resolveRow false false [] (some 44) (some (-63)) "a, Nova Scotia, Canada"
        (Option.none, Option.none)).cache "a, Nova Scotia, Canada" =
      some (some 44, some (-63)) ∧
    (resolveRow false false [⟨"b", some 1, some 2⟩] Option.none Option.none "b"
        (Option.none, Option.none)).ncalls = 0 :=
  ⟨(c4_prior_coords_no_network.1 false false [] "a, Nova Scotia, Canada"
      (Option.none, Option.none) 44 (-63)).1,
   (c4_prior_coords_no_network.1 false false [] "a, Nova Scotia, Canada"
      (Option.none, Option.none) 44 (-63)).2.2.2 rfl,
   c4_prior_coords_no_network.2 false [⟨"b", some 1, some 2⟩] Option.none Option.none "b"
      (Option.none, Option.none) 1 2 rfl⟩

theorem dictSet_not_mem (m : List CRow) (a : String) (v : Option Rat × Option Rat)
    (h : ∀ x ∈ m, x.address ≠ a) : dictSet m a v = m ++ [⟨a, v.1, v.2⟩] := by
  induction m with
  | nil => rfl
  | cons r t ih =>
    have hr : r.address ≠ a := h r (List.mem_cons_self r t)
    simp only [dictSet, if_neg hr, List.cons_append]
    exact congrArg (r :: ·) (ih fun x hx => h x (List.mem_cons_of_mem r hx))

theorem buildDict_append (rows : List CRow) :
    ∀ acc : List CRow, (rows.map CRow.address).Nodup →
      (∀ r ∈ rows, ∀ x ∈ acc, x.address ≠ r.address) →
      buildDict acc rows = acc ++ rows := by
  induction rows with
  | nil => intro acc _ _; simp [buildDict]
  | cons r t ih =>
    intro acc hnd hdisj
    simp only [List.map_cons, List.nodup_cons] at hnd
    simp only [buildDict]
    rw [dictSet_not_mem acc r.address (r.lat, r.lon)
      (fun x hx => hdisj r (List.mem_cons_self r t) x hx)]
    have hrec : (⟨r.address, r.lat, r.lon⟩ : CRow) = r := rfl
    rw [hrec]
    rw [ih (acc ++ [r]) hnd.2]
    · simp
    · intro r' hr' x hx
      rcases List.mem_append.1 hx with hx | hx
      · exact hdisj r' (List.mem_cons_of_mem r hr') x hx
      · have hxr : x = r := by simpa using hx
        subst hxr
        intro hcontra
        exact hnd.1 (hcontra ▸ List.mem_map_of_mem CRow.address hr')

/-- C6 counterexample: saving an empty cache map over a store holding
the key "a" is a no-op (`if not cache: return`), so a load afterwards
still finds "a" — the save did not overwrite the persisted store with
exactly the (empty) saved map. -/
theorem c6_counterexample :
    lookupD (load_cache (save_cache (some [⟨"a", some 1, some 2⟩]) [])) "a" ≠
      lookupD ([] : List CRow) "a" := by
  decide

/-- C6 amended: for every NON-empty cache map (with the unique keys a
Python dict guarantees) and any prior store contents, `save_cache` then
`load_cache` reproduces exactly the saved map — every key maps to the
same `(lat, lon)` pair, null pairs preserved, stale keys gone; saving
an EMPTY map, however, is a no-op that leaves the prior persisted store
untouched. -/
theorem c6_cache_roundtrip :
    (∀ (fs : Option (List CRow)) (cache : List CRow), cache ≠ [] →
      (cache.map CRow.address).Nodup →
      load_cache (save_cache fs cache) = cache) ∧
    (∀ fs : Option (List CRow), save_cache fs [] = fs) := by
  constructor
  · intro fs cache hne hnd
    simp only [save_cache, if_neg hne, load_cache]
    simpa using buildDict_append cache [] hnd (by simp)
  · intro fs
    rfl

/-- C6 witness: a two-entry cache including a recorded failure
round-trips exactly over a stale store, and the empty save keeps it. -/
theorem c6_cache_roundtrip_witness :
    load_cache (save_cache (some [⟨"old", some 9, some 9⟩])
        [⟨"a", some 1, some 2⟩, ⟨"b", Option.none, Option.none⟩]) =
      [⟨"a", some 1, some 2⟩, ⟨"b", Option.none, Option.none⟩] ∧
    save_cache (some [⟨"old", some 9, some 9⟩]) [] = some [⟨"old", some 9, some 9⟩] :=
  ⟨c6_cache_roundtrip.1 (some [⟨"old", some 9, some 9⟩])
      [⟨"a", some 1, some 2⟩, ⟨"b", Option.none, Option.none⟩] (by decide) (by decide),
   c6_cache_roundtrip.2 (some [⟨"old", some 9, some 9⟩])⟩

theorem attemptLoop_all_err (oracle : Nat → GeoResp) (v : String) (backoff : Rat)
    (h : ∀ k, isErr (oracle k) = true) :
    ∀ (fuel i k : Nat),
      attemptLoop oracle v backoff fuel i k =
        (⟨Option.none,
          (List.range fuel).map fun j => (v, i + j, oracle (k + j)),
          (List.range fuel).map fun j => backoff * ((i + j + 1 : Nat) : Rat)⟩,
         k + fuel) := by
  intro fuel
  induction fuel with
  | zero => intro i k; simp [attemptLoop]
  | succ n ih =>
    intro i k
    have hcalls :
        (List.range (n + 1)).map (fun j => (v, i + j, oracle (k + j))) =
          (v, i, oracle k) ::
            (List.range n).map fun j => (v, i + 1 + j, oracle (k + 1 + j)) := by
      rw [List.range_succ_eq_map, List.map_cons, List.map_map]
      simp only [Nat.add_zero]
      refine congrArg (_ :: ·) (List.map_congr_left fun j _ => ?_)
      simp only [Function.comp_apply, Nat.succ_eq_add_one]
      have e1 : i + (j + 1) = i + 1 + j := by omega
      have e2 : k + (j + 1) = k + 1 + j := by omega
      rw [e1, e2]
    have hsleeps :
        (List.range (n + 1)).map (fun j => backoff * ((i + j + 1 : Nat) : Rat)) =
          backoff * ((i + 1 : Nat) : Rat) ::
            (List.range n).map fun j => backoff * ((i + 1 + j + 1 : Nat) : Rat) := by
      rw [List.range_succ_eq_map, List.map_cons, List.map_map]
      simp only [Nat.add_zero]
      refine congrArg (_ :: ·) (List.map_congr_left fun j _ => ?_)
      simp only [Function.comp_apply, Nat.succ_eq_add_one]
      have e1 : i + (j + 1) + 1 = i + 1 + j + 1 := by omega
      rw [e1]
    have hk := h k
    rw [hcalls, hsleeps]
    cases ho : oracle k with
    | found la lo => rw [ho] at hk; simp [isErr] at hk
    | noResult => rw [ho] at hk; simp [isErr] at hk
    | timedOut =>
      simp only [attemptLoop, ho, ih (i + 1) (k + 1)]
      refine Prod.ext ?_ (by omega)
      rfl
    | unavailable =>
      simp only [attemptLoop, ho, ih (i + 1) (k + 1)]
      refine Prod.ext ?_ (by omega)
      rfl
    | otherError =>
      simp only [attemptLoop, ho, ih (i + 1) (k + 1)]
      refine Prod.ext ?_ (by omega)
      rfl

theorem variantsLoop_all_err (oracle : Nat → GeoResp) (backoff : Rat) (retries : Nat)
    (h : ∀ k, isErr (oracle k) = true) :
    ∀ (vs : List String) (k : Nat),
      (variantsLoop oracle backoff retries vs k).1.result = Option.none ∧
      (variantsLoop oracle backoff retries vs k).1.calls.map callIdx =
        (vs.flatMap fun v => (List.range retries).map fun i => (v, i)) ∧
      (variantsLoop oracle backoff retries vs k).1.sleeps =
        (vs.flatMap fun _ => (List.range retries).map
          fun i => backoff * ((i + 1 : Nat) : Rat)) := by
  intro vs
  induction vs with
  | nil => intro k; simp [variantsLoop]
  | cons v t ih =>
    intro k
    have ha := attemptLoop_all_err oracle v backoff h retries 0 k
    have hr := ih (k + retries)
    simp only [variantsLoop, ha]
    refine ⟨hr.1, ?_, ?_⟩
    · simp only [List.flatMap_cons, List.map_append, hr.2.1, List.map_map]
      refine congrArg (· ++ _) (List.map_congr_left fun j _ => ?_)
      simp [callIdx]
    · simp only [List.flatMap_cons, hr.2.2]
      refine congrArg (· ++ _) (List.map_congr_left fun j _ => ?_)
      simp

theorem attemptLoop_no_found (oracle : Nat → GeoResp) (v : String) (backoff : Rat)
    (h : ∀ k, isFound (oracle k) = false) :
    ∀ (fuel i k : Nat),
      (attemptLoop oracle v backoff fuel i k).1.result = Option.none ∧
      (attemptLoop oracle v backoff fuel i k).1.calls.map callIdx =
        ((List.range fuel).map fun j => (v, i + j)) ∧
      (attemptLoop oracle v backoff fuel i k).2 = k + fuel := by
  intro fuel
  induction fuel with
  | zero => intro i k; simp [attemptLoop]
  | succ n ih =>
    intro i k
    have hidx :
        (List.range (n + 1)).map (fun j => (v, i + j)) =
          (v, i) :: (List.range n).map fun j => (v, i + 1 + j) := by
      rw [List.range_succ_eq_map, List.map_cons, List.map_map]
      simp only [Nat.add_zero]
      refine congrArg (_ :: ·) (List.map_congr_left fun j _ => ?_)
      simp only [Function.comp_apply, Nat.succ_eq_add_one]
      have e1 : i + (j + 1) = i + 1 + j := by omega
      rw [e1]
    have hr := ih (i + 1) (k + 1)
    have hk := h k
    rw [hidx]
    cases ho : oracle k with
    | found la lo => rw [ho] at hk; simp [isFound] at hk
    | noResult =>
      simp only [attemptLoop, ho, List.map_cons]
      exact ⟨hr.1, by rw [hr.2.1]; rfl, by rw [hr.2.2]; omega⟩
    | timedOut =>
      simp only [attemptLoop, ho, List.map_cons]
      exact ⟨hr.1, by rw [hr.2.1]; rfl, by rw [hr.2.2]; omega⟩
    | unavailable =>
      simp only [attemptLoop, ho, List.map_cons]
      exact ⟨hr.1, by rw [hr.2.1]; rfl, by rw [hr.2.2]; omega⟩
    | otherError =>
      simp only [attemptLoop, ho, List.map_cons]
      exact ⟨hr.1, by rw [hr.2.1]; rfl, by rw [hr.2.2]; omega⟩

theorem variantsLoop_no_found (oracle : Nat → GeoResp) (backoff : Rat) (retries : Nat)
    (h : ∀ k, isFound (oracle k) = false) :
    ∀ (vs : List String) (k : Nat),
      (variantsLoop oracle backoff retries vs k).1.result = Option.none ∧
      (variantsLoop oracle backoff retries vs k).1.calls.map callIdx =
        (vs.flatMap fun v => (List.range retries).map fun i => (v, i)) := by
  intro vs
  induction vs with
  | nil => intro k; simp [variantsLoop]
  | cons v t ih =>
    intro k
    have ha := attemptLoop_no_found oracle v backoff h retries 0 k
    have hr := ih ((attemptLoop oracle v backoff retries 0 k).2)
    rcases hres : attemptLoop oracle v backoff retries 0 k with ⟨out, k2⟩
    rw [hres] at ha hr
    have hout : out.result = Option.none := ha.1
    simp only [variantsLoop, hres, hout]
    refine ⟨hr.1, ?_⟩
    simp only [List.flatMap_cons, List.map_append, hr.2]
    refine congrArg (· ++ _) ?_
    have := ha.2.1
    simpa using this

/-- C1 counterexample: the claim says a non-transient failure stops the
retrying of a variant and falls through to the next variant.  With an
oracle that always raises a generic (non-transient) exception, the log
shows each variant attempted three times — the second and third calls
on a variant happen right after a non-transient failure of the same
variant, which the claim forbids. -/
theorem c1_counterexample :
    (geocode_address (fun _ => GeoResp.otherError) "X, Nova Scotia" 3 2).calls =
      [("X, Nova Scotia", 0, GeoResp.otherError), ("X, Nova Scotia", 1, GeoResp.otherError),
       ("X, Nova Scotia", 2, GeoResp.otherError),
       ("X, Nova Scotia, Canada", 0, GeoResp.otherError),
       ("X, Nova Scotia, Canada", 1, GeoResp.otherError),
       ("X, Nova Scotia, Canada", 2, GeoResp.otherError)] ∧
    (geocode_address (fun _ => GeoResp.otherError) "X, Nova Scotia" 3 2).result =
      Option.none := by
  constructor <;> decide

/-- C1 amended: both `except` arms of `geocode_address` behave
identically — after ANY failure (transient or not) the function sleeps
`backoff * attempt_number` and retries the SAME variant, moving to the
next variant only once the retry budget of the current one is
exhausted.  Under an oracle that always raises (any mix of exception
kinds), every variant is attempted exactly `retries` times with the
full backoff schedule, and the result degrades to `(None, None)`. -/
theorem c1_retry_uniform (address : String) (oracle : Nat → GeoResp) (retries : Nat)
    (backoff : Rat) (h : ∀ k, isErr (oracle k) = true) :
    (geocode_address oracle address retries backoff).result = Option.none ∧
    (geocode_address oracle address retries backoff).calls.map callIdx =
      ((buildVariants address).flatMap fun v => (List.range retries).map fun i => (v, i)) ∧
    (geocode_address oracle address retries backoff).sleeps =
      ((buildVariants address).flatMap fun _ => (List.range retries).map
        fun i => backoff * ((i + 1 : Nat) : Rat)) :=
  variantsLoop_all_err oracle backoff retries h (buildVariants address) 0

/-- C1 witness: a concrete run mixing generic and timeout failures has
the uniform three-attempts-per-variant log and sleep schedule. -/
theorem c1_retry_uniform_witness :
    (geocode_address (fun k => if k % 2 = 0 then GeoResp.otherError else GeoResp.timedOut)
        "X, Nova Scotia" 3 2).result = Option.none ∧
    (geocode_address (fun k => if k % 2 = 0 then GeoResp.otherError else GeoResp.timedOut)
        "X, Nova Scotia" 3 2).calls.map callIdx =
      ((buildVariants "X, Nova Scotia").flatMap fun v =>
        (List.range 3).map fun i => (v, i)) ∧
    (geocode_address (fun k => if k % 2 = 0 then GeoResp.otherError else GeoResp.timedOut)
        "X, Nova Scotia" 3 2).sleeps =
      ((buildVariants "X, Nova Scotia").flatMap fun _ =>
        (List.range 3).map fun i => (2 : Rat) * ((i + 1 : Nat) : Rat)) :=
  c1_retry_uniform "X, Nova Scotia" _ 3 2 (by
    intro k
    by_cases hk : k % 2 = 0 <;> simp [isErr, hk])

/-- C7: when every service call fails (it never returns a location),
`geocode_address` with `retries = 3` attempts each variant exactly
three times, in variant order, never propagates an exception (the
embedded client is a total function into result values), and returns
`(None, None)` once every variant is exhausted. -/
theorem c7_all_fail_three_attempts (address : String) (oracle : Nat → GeoResp)
    (h : ∀ k, isFound (oracle k) = false) :
    (geocode_address oracle address 3 2).result = Option.none ∧
    (geocode_address oracle address 3 2).calls.map callIdx =
      ((buildVariants address).flatMap fun v => [(v, 0), (v, 1), (v, 2)]) := by
  have hv := variantsLoop_no_found oracle 2 3 h (buildVariants address) 0
  refine ⟨hv.1, ?_⟩
  show (variantsLoop oracle 2 3 (buildVariants address) 0).1.calls.map callIdx = _
  rw [hv.2]
  have h3 : (fun v : String => (List.range 3).map fun i => (v, i)) =
      fun v : String => [(v, 0), (v, 1), (v, 2)] := by
    funext v
    rfl
  rw [h3]

/-- C7 witness: a permanently timing-out service yields three attempts
on each of the two variants of a concrete address and a null result. -/
theorem c7_all_fail_three_attempts_witness :
    (geocode_address (fun _ => GeoResp.timedOut) "X, Nova Scotia" 3 2).result =
      Option.none ∧
    (geocode_address (fun _ => GeoResp.timedOut) "X, Nova Scotia" 3 2).calls.map callIdx =
      ((buildVariants "X, Nova Scotia").flatMap fun v => [(v, 0), (v, 1), (v, 2)]) :=
  c7_all_fail_three_attempts "X, Nova Scotia" (fun _ => GeoResp.timedOut) fun _ => rfl

theorem string_mk_toList (s : String) : String.mk s.toList = s := by
  cases s
  rfl

theorem normStr_tokens (s : String) :
    containsL nsTok (normStr s).toList = true ∧
    containsL caTok (normStr s).toList = true := by
  simp only [normStr]
  generalize cleanPass s.toList = c1
  generalize (if !containsL nsTok c1 && hasNSWord Option.none c1 then replaceSp c1 else c1) = c2
  have hc3 : containsL nsTok
      (if !containsL nsTok c2 then c2 ++ ", Nova Scotia".toList else c2) = true := by
    by_cases h : containsL nsTok c2 = true
    · simp [h]
    · simp only [Bool.not_eq_true] at h
      simp only [h, Bool.not_false, if_pos]
      exact containsL_append_left _ _ _ (by decide)
  generalize hg3 : (if !containsL nsTok c2 then c2 ++ ", Nova Scotia".toList else c2) = c3 at hc3
  constructor
  · by_cases h : containsL caTok c3 = true
    · simpa [h] using hc3
    · simp only [Bool.not_eq_true] at h
      simp only [h, Bool.not_false, if_pos]
      exact containsL_append_right _ _ _ hc3
  · by_cases h : containsL caTok c3 = true
    · simp [h]
    · simp only [Bool.not_eq_true] at h
      simp only [h, Bool.not_false, if_pos]
      exact containsL_append_left _ _ _ (by decide)

theorem normStr_stable (s : String) (h : cleanPass (normStr s).toList = (normStr s).toList) :
    normStr (normStr s) = normStr s := by
  have ht := normStr_tokens s
  conv_lhs => rw [normStr]
  rw [h]
  simp only [ht.1, ht.2, Bool.not_true, Bool.false_and, Bool.false_eq_true, if_false]
  exact string_mk_toList (normStr s)

/-- C5 counterexample: `normalize_address` is not idempotent.  For the
input "," the cleanup stage empties the string, so the first pass
returns ", Nova Scotia, Canada" with a leading ", " that the second
pass strips: applying the function twice gives "Nova Scotia, Canada",
a different string. -/
theorem c5_counterexample :
    normalize_address (PyVal.str (normalize_address (PyVal.str ","))) ≠
      normalize_address (PyVal.str ",") := by
  decide

/-- C5 amended: `normalize_address` is total, maps non-string input to
the empty string, and for every string input (in particular every
non-empty one) its result contains both the region token "Nova Scotia"
and the country token "Canada"; idempotence, however, only holds for
inputs whose first-pass result is stable under the cleanup pass — it
fails for inputs whose address core cleans away to the empty string
(e.g. ","), where the first pass emits a leading ", " that the second
pass strips. -/
theorem c5_normalize_props :
    (∀ v : PyVal, (∀ s, v ≠ PyVal.str s) → normalize_address v = "") ∧
    (∀ s : String, containsL nsTok (normalize_address (PyVal.str s)).toList = true ∧
      containsL caTok (normalize_address (PyVal.str s)).toList = true) ∧
    (∀ s : String, cleanPass (normalize_address (PyVal.str s)).toList =
        (normalize_address (PyVal.str s)).toList →
      normalize_address (PyVal.str (normalize_address (PyVal.str s))) =
        normalize_address (PyVal.str s)) := by
  refine ⟨?_, ?_, ?_⟩
  · intro v hv
    cases v with
    | str s => exact absurd rfl (hv s)
    | num n => rfl
    | none => rfl
    | bool b => rfl
  · intro s
    exact normStr_tokens s
  · intro s hs
    exact normStr_stable s hs

/-- C5 witness: a non-string input yields the empty string; a concrete
ordinary address gains both tokens and, being cleanup-stable after one
pass, is a fixed point of a second pass. -/
theorem c5_normalize_props_witness :
    normalize_address PyVal.none = "" ∧
    (containsL nsTok (normalize_address (PyVal.str "5 Main St")).toList = true ∧
      containsL caTok (normalize_address (PyVal.str "5 Main St")).toList = true) ∧
    normalize_address (PyVal.str (normalize_address (PyVal.str "5 Main St"))) =
      normalize_address (PyVal.str "5 Main St") :=
  ⟨c5_normalize_props.1 PyVal.none (fun s h => by cases h),
   c5_normalize_props.2.1 "5 Main St",
   c5_normalize_props.2.2 "5 Main St" (by decide)⟩

theorem natDigitsF_mem :
    ∀ (fuel n : Nat), ∀ c ∈ natDigitsF fuel n,
      c ∈ (['0', '1', '2', '3', '4', '5', '6', '7', '8', '9'] : List Char) := by
  intro fuel
  induction fuel with
  | zero => intro n c hc; simp [natDigitsF] at hc
  | succ m ih =>
    intro n c hc
    simp only [natDigitsF] at hc
    by_cases h : n < 10
    · rw [if_pos h] at hc
      simp only [List.mem_singleton] at hc
      subst hc
      interval_cases n <;> decide
    · rw [if_neg h] at hc
      rcases List.mem_append.1 hc with hc | hc
      · exact ih (n / 10) c hc
      · simp only [List.mem_singleton] at hc
        subst hc
        have hm : n % 10 < 10 := Nat.mod_lt _ (by omega)
        generalize n % 10 = r at hm
        interval_cases r <;> decide

theorem mem_stripWS {l : List Char} {c : Char} (h : c ∈ stripWS l) : c ∈ l := by
  simp only [stripWS, List.mem_reverse] at h
  have h2 : c ∈ (l.dropWhile isPySpace).reverse := (List.dropWhile_sublist _).subset h
  rw [List.mem_reverse] at h2
  exact (List.dropWhile_sublist _).subset h2

theorem intStr_mem (n : Int) (c : Char) (hc : c ∈ intStr n) :
    c ∈ (['-', '0', '1', '2', '3', '4', '5', '6', '7', '8', '9'] : List Char) := by
  simp only [intStr] at hc
  by_cases h : n < 0
  · rw [if_pos h] at hc
    rcases List.mem_cons.1 hc with hc | hc
    · subst hc; decide
    · exact List.mem_cons_of_mem _ (natDigitsF_mem _ _ c hc)
  · rw [if_neg h] at hc
    exact List.mem_cons_of_mem _ (natDigitsF_mem _ _ c hc)

theorem lowerL_stripWS_intStr_mem (n : Int) (c : Char)
    (hc : c ∈ lowerL (stripWS (intStr n))) :
    c ∈ (['-', '0', '1', '2', '3', '4', '5', '6', '7', '8', '9'] : List Char) := by
  rcases List.mem_map.1 hc with ⟨c0, hc0, rfl⟩
  have h1 : c0 ∈ intStr n := mem_stripWS hc0
  have h2 := intStr_mem n c0 h1
  fin_cases h2 <;> decide

theorem status_ne_of_num (n : Int) (t : List Char)
    (hbad : ∃ c ∈ t, c ∉ (['-', '0', '1', '2', '3', '4', '5', '6', '7', '8', '9'] : List Char)) :
    lowerL (stripWS (intStr n)) ≠ t := by
  intro he
  rcases hbad with ⟨c, hct, hcn⟩
  rw [← he] at hct
  exact hcn (lowerL_stripWS_intStr_mem n c hct)

theorem nsv_num (n : Int) : normalize_status_value (PyVal.num n) = "none" := by
  have h1 := status_ne_of_num n "current".toList ⟨'c', by decide, by decide⟩
  have h2 := status_ne_of_num n "active".toList ⟨'a', by decide, by decide⟩
  have h3 := status_ne_of_num n "both".toList ⟨'b', by decide, by decide⟩
  have h4 := status_ne_of_num n "recent".toList ⟨'r', by decide, by decide⟩
  have hb : (decide (lowerL (stripWS (intStr n)) = "current".toList) ||
      decide (lowerL (stripWS (intStr n)) = "active".toList) ||
      decide (lowerL (stripWS (intStr n)) = "both".toList)) = false := by
    simp only [Bool.or_eq_false_iff, decide_eq_false_iff_not]
    exact ⟨⟨h1, h2⟩, h3⟩
  simp only [normalize_status_value, pyStr, hb, Bool.false_eq_true, if_false]
  exact if_neg h4

theorem njs_num (n : Int) : normalizeStatus (PyVal.num n) = "none" := by
  by_cases h0 : n = 0
  · subst h0; decide
  · have hj : jsStr (PyVal.num n) = intStr n := by simp [jsStr, h0]
    have h1 := status_ne_of_num n "current".toList ⟨'c', by decide, by decide⟩
    have h2 := status_ne_of_num n "active".toList ⟨'a', by decide, by decide⟩
    have h3 := status_ne_of_num n "both".toList ⟨'b', by decide, by decide⟩
    have h4 := status_ne_of_num n "recent".toList ⟨'r', by decide, by decide⟩
    have hb : (decide (lowerL (stripWS (intStr n)) = "current".toList) ||
        decide (lowerL (stripWS (intStr n)) = "active".toList) ||
        decide (lowerL (stripWS (intStr n)) = "both".toList)) = false := by
      simp only [Bool.or_eq_false_iff, decide_eq_false_iff_not]
      exact ⟨⟨h1, h2⟩, h3⟩
    simp only [normalizeStatus, hj]
    rw [if_neg h4]
    simp only [hb, Bool.false_eq_true, if_false]

/-- C8: both the Python `normalize_status_value` and the client-side
`normalizeStatus` map every input into the canonical enum
{none, recent, current}: after trimming and lower-casing, the legacy
values "active" and "both" (and "current" itself) map to "current",
"recent" maps to "recent", every other string maps to "none", and every
non-string input coerces to "none". -/
theorem c8_status_normalization :
    (∀ v : PyVal, normalize_status_value v = "none" ∨
      normalize_status_value v = "recent" ∨ normalize_status_value v = "current") ∧
    (∀ v : PyVal, normalizeStatus v = "none" ∨
      normalizeStatus v = "recent" ∨ normalizeStatus v = "current") ∧
    (∀ s : String,
      (lowerL (stripWS s.toList) = "current".toList ∨
        lowerL (stripWS s.toList) = "active".toList ∨
        lowerL (stripWS s.toList) = "both".toList) →
      normalize_status_value (PyVal.str s) = "current" ∧
      normalizeStatus (PyVal.str s) = "current") ∧
    (∀ s : String, lowerL (stripWS s.toList) = "recent".toList →
      normalize_status_value (PyVal.str s) = "recent" ∧
      normalizeStatus (PyVal.str s) = "recent") ∧
    (∀ s : String,
      lowerL (stripWS s.toList) ∉
        ["current".toList, "active".toList, "both".toList, "recent".toList] →
      normalize_status_value (PyVal.str s) = "none" ∧
      normalizeStatus (PyVal.str s) = "none") ∧
    (∀ v : PyVal, (∀ s, v ≠ PyVal.str s) →
      normalize_status_value v = "none" ∧ normalizeStatus v = "none") := by
  refine ⟨?_, ?_, ?_, ?_, ?_, ?_⟩
  · intro v
    simp only [normalize_status_value]
    split
    · exact Or.inr (Or.inr rfl)
    · split
      · exact Or.inr (Or.inl rfl)
      · exact Or.inl rfl
  · intro v
    simp only [normalizeStatus]
    split
    · exact Or.inr (Or.inl rfl)
    · split
      · exact Or.inr (Or.inr rfl)
      · exact Or.inl rfl
  · intro s h
    constructor
    · simp only [normalize_status_value, pyStr]
      rcases h with h | h | h <;> simp only [h] <;> decide
    · simp only [normalizeStatus, jsStr]
      rcases h with h | h | h <;> simp only [h] <;> decide
  · intro s h
    constructor
    · simp only [normalize_status_value, pyStr]
      simp only [h]
      decide
    · simp only [normalizeStatus, jsStr]
      simp only [h]
      decide
  · intro s h
    simp only [List.mem_cons, List.mem_singleton, not_or] at h
    obtain ⟨h1, h2, h3, h4, -⟩ := h
    have hb : (decide (lowerL (stripWS s.toList) = "current".toList) ||
        decide (lowerL (stripWS s.toList) = "active".toList) ||
        decide (lowerL (stripWS s.toList) = "both".toList)) = false := by
      simp only [Bool.or_eq_false_iff, decide_eq_false_iff_not]
      exact ⟨⟨h1, h2⟩, h3⟩
    constructor
    · simp only [normalize_status_value, pyStr, hb, Bool.false_eq_true, if_false]
      exact if_neg h4
    · simp only [normalizeStatus, jsStr]
      rw [if_neg h4]
      simp only [hb, Bool.false_eq_true, if_false]
  · intro v hv
    cases v with
    | str s => exact absurd rfl (hv s)
    | num n => exact ⟨nsv_num n, njs_num n⟩
    | none => exact ⟨by decide, by decide⟩
    | bool b => cases b <;> exact ⟨by decide, by decide⟩

/-- C8 witness: concrete reads — " Active " maps to "current" in both
implementations, "Recent" to "recent", an unrecognized string and the
number 3 to "none". -/
theorem c8_status_normalization_witness :
    (normalize_status_value (PyVal.str " Active ") = "current" ∧
      normalizeStatus (PyVal.str " Active ") = "current") ∧
    normalize_status_value (PyVal.str "Recent") = "recent" ∧
    normalize_status_value (PyVal.str "huh") = "none" ∧
    normalize_status_value (PyVal.num 3) = "none" :=
  ⟨c8_status_normalization.2.2.1 " Active " (Or.inr (Or.inl (by decide))),
   (c8_status_normalization.2.2.2.1 "Recent" (by decide)).1,
   (c8_status_normalization.2.2.2.2.1 "huh" (by decide)).1,
   (c8_status_normalization.2.2.2.2.2 (PyVal.num 3) (fun s h => by cases h)).1⟩

theorem doubleQ_no_quote (f : List Char) (h : ∀ c ∈ f, c ≠ '"') : doubleQ f = f := by
  induction f with
  | nil => rfl
  | cons c t ih =>
    have hc : c ≠ '"' := h c (List.mem_cons_self c t)
    simp only [doubleQ, List.flatMap_cons, if_neg hc]
    simp only [doubleQ] at ih
    rw [ih fun x hx => h x (List.mem_cons_of_mem c hx)]
    rfl

theorem needsQuote_false_chars (f : List Char) (h : needsQuote (doubleQ f) = false) :
    ∀ c ∈ f, c ≠ '"' ∧ c ≠ ',' ∧ c ≠ '\n' := by
  intro c hc
  rw [needsQuote, List.any_eq_false] at h
  by_cases hq : c = '"'
  · exfalso
    have hmem : '"' ∈ doubleQ f := by
      apply List.mem_flatMap.2
      exact ⟨c, hc, by simp [hq]⟩
    have := h '"' hmem
    simp at this
  · have hmem : c ∈ doubleQ f := by
      apply List.mem_flatMap.2
      exact ⟨c, hc, by simp [hq]⟩
    have := h c hmem
    simp only [Bool.or_eq_true, decide_eq_true_eq, not_or] at this
    exact ⟨hq, this.1.2, this.2⟩

theorem doubleQ_cons (c : Char) (t : List Char) :
    doubleQ (c :: t) = (if c = '"' then ['"', '"'] else [c]) ++ doubleQ t := by
  simp [doubleQ]

theorem parseQuoted_doubleQ (f rest : List Char) (h : rest.head? ≠ some '"') :
    parseQuoted (doubleQ f ++ '"' :: rest) = (f, rest) := by
  induction f with
  | nil =>
    cases rest with
    | nil => rfl
    | cons c u =>
      have hc : c ≠ '"' := by
        intro hh
        exact h (by rw [hh]; rfl)
      simp only [doubleQ, List.flatMap_nil, List.nil_append]
      rw [parseQuoted]
      simp [hc]
  | cons c t ih =>
    rw [doubleQ_cons]
    by_cases hc : c = '"'
    · subst hc
      rw [if_pos rfl]
      have hassoc : (['"', '"'] ++ doubleQ t) ++ '"' :: rest =
          '"' :: '"' :: (doubleQ t ++ '"' :: rest) := by simp
      rw [hassoc, parseQuoted]
      simp [ih]
    · rw [if_neg hc]
      have hassoc : ([c] ++ doubleQ t) ++ '"' :: rest =
          c :: (doubleQ t ++ '"' :: rest) := by simp
      rw [hassoc, parseQuoted.eq_def]
      simp only [hc, if_false]
      rw [ih]

theorem parseBare_clean (f rest : List Char) (hf : ∀ c ∈ f, c ≠ ',' ∧ c ≠ '\n')
    (hrest : rest = [] ∨ ∃ c u, rest = c :: u ∧ (c = ',' ∨ c = '\n')) :
    parseBare (f ++ rest) = (f, rest) := by
  induction f with
  | nil =>
    rcases hrest with rfl | ⟨c, u, rfl, hc⟩
    · rfl
    · simp only [List.nil_append]
      rw [parseBare]
      rcases hc with rfl | rfl <;> simp
  | cons c t ih =>
    have hc := hf c (List.mem_cons_self c t)
    simp only [List.cons_append]
    rw [parseBare]
    simp only [hc.1, hc.2]
    rw [ih fun x hx => hf x (List.mem_cons_of_mem c hx)]
    simp

theorem parseField_escape (f rest : List Char)
    (hrest : rest = [] ∨ ∃ c u, rest = c :: u ∧ (c = ',' ∨ c = '\n')) :
    parseField (escapeField f ++ rest) = (f, rest) := by
  by_cases hq : needsQuote (doubleQ f) = true
  · have he : escapeField f = '"' :: (doubleQ f ++ ['"']) := by
      simp [escapeField, hq]
    rw [he]
    have hassoc : ('"' :: (doubleQ f ++ ['"'])) ++ rest =
        '"' :: (doubleQ f ++ '"' :: rest) := by simp
    rw [hassoc, parseField]
    simp only [if_pos rfl]
    rcases hrest with rfl | ⟨c, u, rfl, hc⟩
    · exact parseQuoted_doubleQ f [] (by simp)
    · refine parseQuoted_doubleQ f (c :: u) ?_
      rcases hc with rfl | rfl <;> simp
  · have hq' : needsQuote (doubleQ f) = false := by
      cases h : needsQuote (doubleQ f)
      · rfl
      · exact absurd h hq
    have hchars := needsQuote_false_chars f hq'
    have he : escapeField f = f := by
      rw [escapeField, if_neg (by simp [hq'])]
      exact doubleQ_no_quote f fun c hc => (hchars c hc).1
    rw [he]
    have hbare : parseBare (f ++ rest) = (f, rest) :=
      parseBare_clean f rest (fun c hc => ⟨(hchars c hc).2.1, (hchars c hc).2.2⟩) hrest
    cases hfr : f ++ rest with
    | nil => rw [parseField]; rw [← hfr, hbare]
    | cons c u =>
      have hcq : c ≠ '"' := by
        cases f with
        | nil =>
          rcases hrest with rfl | ⟨d, w, rfl, hd⟩
          · simp at hfr
          · simp only [List.nil_append] at hfr
            injection hfr with h1 h2
            subst h1
            rcases hd with rfl | rfl <;> decide
        | cons f0 ft =>
          simp only [List.cons_append, List.cons.injEq] at hfr
          rw [← hfr.1]
          exact (hchars f0 (List.mem_cons_self _ _)).1
      rw [parseField, if_neg hcq, ← hfr, hbare]

theorem parseRecF_escaped (fields : List (List Char)) :
    ∀ (fuel : Nat) (rest : List Char), fields ≠ [] → fields.length ≤ fuel →
      (rest = [] ∨ ∃ u, rest = '\n' :: u) →
      parseRecF fuel (joinSep ',' (fields.map escapeField) ++ rest) = (fields, rest.tail) := by
  induction fields with
  | nil => intro fuel rest hne; exact absurd rfl hne
  | cons f fs ih =>
    intro fuel rest _ hfuel hrest
    have hrest' : rest = [] ∨ ∃ c u, rest = c :: u ∧ (c = ',' ∨ c = '\n') := by
      rcases hrest with rfl | ⟨u, rfl⟩
      · exact Or.inl rfl
      · exact Or.inr ⟨'\n', u, rfl, Or.inr rfl⟩
    cases fs with
    | nil =>
      cases fuel with
      | zero => simp at hfuel
      | succ m =>
        simp only [List.map_cons, List.map_nil, joinSep]
        rw [parseRecF]
        have hp := parseField_escape f rest hrest'
        simp only [hp]
        rcases hrest with rfl | ⟨u, rfl⟩
        · simp
        · simp
    | cons f2 ft =>
      cases fuel with
      | zero => simp at hfuel
      | succ m =>
        have hjoin : joinSep ',' ((f :: f2 :: ft).map escapeField) ++ rest =
            escapeField f ++
              (',' :: (joinSep ',' ((f2 :: ft).map escapeField) ++ rest)) := by
          simp [joinSep]
        rw [hjoin, parseRecF]
        have hp := parseField_escape f
          (',' :: (joinSep ',' ((f2 :: ft).map escapeField) ++ rest))
          (Or.inr ⟨',', _, rfl, Or.inl rfl⟩)
        simp only [hp]
        have hih := ih m rest (by simp) (by simp only [List.length_cons] at hfuel ⊢; omega)
          hrest
        simp only [List.map_cons] at hih
        simp [hih]

theorem joinSep_length_ge (sep : Char) (parts : List (List Char)) :
    parts.length ≤ (joinSep sep parts).length + 1 := by
  induction parts with
  | nil => simp [joinSep]
  | cons x t ih =>
    cases t with
    | nil => simp [joinSep]
    | cons y u =>
      rw [joinSep]
      simp only [List.length_cons, List.length_append] at ih ⊢
      omega

theorem parseRowsF_nil (m : Nat) : parseRowsF m [] = [] := by
  cases m <;> rfl

theorem parseRowsF_escaped (rows : List (List (List Char))) :
    ∀ fuel : Nat, rows.length ≤ fuel → (∀ row ∈ rows, 2 ≤ row.length) →
      parseRowsF fuel
          (joinSep '\n' (rows.map fun row => joinSep ',' (row.map escapeField))) =
        rows := by
  induction rows with
  | nil =>
    intro fuel _ _
    simpa [joinSep] using parseRowsF_nil fuel
  | cons row rows' ih =>
    intro fuel hfuel hrows
    cases fuel with
    | zero => simp at hfuel
    | succ m =>
      have hrow2 : 2 ≤ row.length := hrows row (List.mem_cons_self _ _)
      have hrowne : row ≠ [] := by
        intro hr
        rw [hr] at hrow2
        simp at hrow2
      have hlen : 1 ≤ (joinSep ',' (row.map escapeField)).length := by
        have := joinSep_length_ge ',' (row.map escapeField)
        simp only [List.length_map] at this
        omega
      cases rows' with
      | nil =>
        simp only [List.map_cons, List.map_nil, joinSep]
        cases hl : joinSep ',' (row.map escapeField) with
        | nil => rw [hl] at hlen; simp at hlen
        | cons c u =>
          rw [parseRowsF]
          have hrec := parseRecF_escaped row ((c :: u).length + 1) [] hrowne
            (by
              have := joinSep_length_ge ',' (row.map escapeField)
              simp only [List.length_map] at this
              rw [hl] at this
              omega)
            (Or.inl rfl)
          rw [List.append_nil, hl] at hrec
          simp only [List.length_cons] at hrec
          simp [hrec, parseRowsF_nil]
      | cons row2 t =>
        have hjoin :
            joinSep '\n' ((row :: row2 :: t).map fun r => joinSep ',' (r.map escapeField)) =
              joinSep ',' (row.map escapeField) ++
                '\n' :: joinSep '\n'
                  ((row2 :: t).map fun r => joinSep ',' (r.map escapeField)) := by
          simp [joinSep]
        rw [hjoin]
        cases hl : joinSep ',' (row.map escapeField) with
        | nil => rw [hl] at hlen; simp at hlen
        | cons c u =>
          simp only [List.cons_append]
          rw [parseRowsF]
          have hrec := parseRecF_escaped row
            ((c :: (u ++ '\n' :: joinSep '\n'
              ((row2 :: t).map fun r => joinSep ',' (r.map escapeField)))).length + 1)
            ('\n' :: joinSep '\n' ((row2 :: t).map fun r => joinSep ',' (r.map escapeField)))
            hrowne
            (by
              have h1 := joinSep_length_ge ',' (row.map escapeField)
              simp only [List.length_map] at h1
              rw [hl] at h1
              simp only [List.length_cons] at h1
              simp only [List.length_cons, List.length_append]
              omega)
            (Or.inr ⟨_, rfl⟩)
          rw [hl] at hrec
          simp only [List.cons_append] at hrec
          rw [hrec]
          have hih := ih m (by simp only [List.length_cons] at hfuel ⊢; omega)
            (fun r hr => hrows r (List.mem_cons_of_mem _ hr))
          simp only [List.map_cons] at hih
          simp [hih]

/-- C9: for every non-empty store, `downloadCSV` emits a text with the
fixed header line (School, Address, Group, lat, lon, Status) followed
by exactly one RFC4180-escaped row per record — all records, with no
dependence on the active filter — and re-parsing that text recovers the
header and every field value of every record, including fields
containing commas, quotes or newlines. -/
theorem c9_csv_roundtrip (recs : List Rec) (h : recs ≠ []) :
    downloadCSV recs = some (csvText recs) ∧
    parseCSV (csvText recs) = csvHeaders :: recs.map recFieldsL ∧
    (parseCSV (csvText recs)).length = recs.length + 1 := by
  have hdl : downloadCSV recs = some (csvText recs) := by
    cases recs with
    | nil => exact absurd rfl h
    | cons r t => rfl
  have hrows : csvText recs =
      joinSep '\n' ((csvHeaders :: recs.map recFieldsL).map
        fun row => joinSep ',' (row.map escapeField)) := by
    simp only [csvText, List.map_cons, List.map_map]
    have hhead : csvHeaders.map escapeField = csvHeaders := by decide
    rw [hhead]
    simp only [Function.comp_def]
  have hparse : parseCSV (csvText recs) = csvHeaders :: recs.map recFieldsL := by
    show parseRowsF ((csvText recs).length + 1) (csvText recs) = _
    rw [hrows]
    apply parseRowsF_escaped
    · have := joinSep_length_ge '\n'
        ((csvHeaders :: recs.map recFieldsL).map fun row => joinSep ',' (row.map escapeField))
      simp only [List.length_map] at this
      exact this
    · intro row hrow
      rcases List.mem_cons.1 hrow with rfl | hrow
      · decide
      · rcases List.mem_map.1 hrow with ⟨r, _, rfl⟩
        simp [recFieldsL]
  exact ⟨hdl, hparse, by rw [hparse]; simp⟩

/-- C9 witness: a concrete one-record store whose address contains a
comma exports and re-parses to the same field values. -/
theorem c9_csv_roundtrip_witness :
    downloadCSV [⟨some "Elm PS", some "123 Main St, Apt 4", some "HRCE", some 44,
        some (-63), some "current"⟩] =
      some (csvText [⟨some "Elm PS", some "123 Main St, Apt 4", some "HRCE", some 44,
        some (-63), some "current"⟩]) ∧
    parseCSV (csvText [⟨some "Elm PS", some "123 Main St, Apt 4", some "HRCE", some 44,
        some (-63), some "current"⟩]) =
      csvHeaders :: [(⟨some "Elm PS", some "123 Main St, Apt 4", some "HRCE", some 44,
        some (-63), some "current"⟩ : Rec)].map recFieldsL ∧
    (parseCSV (csvText [⟨some "Elm PS", some "123 Main St, Apt 4", some "HRCE", some 44,
        some (-63), some "current"⟩])).length =
      [(⟨some "Elm PS", some "123 Main St, Apt 4", some "HRCE", some 44,
        some (-63), some "current"⟩ : Rec)].length + 1 :=
  c9_csv_roundtrip _ (List.cons_ne_nil _ _)
